import Mathlib

/-!
# Verification of `torch/fx/immutable_collections.py`

A shallow embedding of the immutable container factory and its pytree
registration adapter.  Python values relevant to the module are embedded as
`PyObj`; structural (Python `==`) equality, Python hashing (`hash`), the
blocked-mutation method dispatch, the `__reduce__` hooks and the registered
flatten / unflatten / flatten-with-keys functions are translated from the
source.  The helpers imported from `torch.utils._pytree` are not part of the
repository sources and are modelled from the specification where needed.
-/

set_option autoImplicit false
set_option maxRecDepth 8000

namespace ImmutableCollections

/-- The universe of Python values this module manipulates: integers, strings,
tuples, plain (mutable, unhashable) lists and dicts, and the two immutable
container types created by `_create_immutable_container_class`.  A dict is
represented by its insertion-ordered association list of key/value pairs. -/
inductive PyObj where
  | int : Int → PyObj
  | str : String → PyObj
  | tuple : List PyObj → PyObj
  | list : List PyObj → PyObj
  | dict : List (PyObj × PyObj) → PyObj
  | immutable_list : List PyObj → PyObj
  | immutable_dict : List (PyObj × PyObj) → PyObj

mutual

/-- Python `==` on the embedded values.  `list.__eq__` / `dict.__eq__` are
inherited by the immutable subclasses and compare across the
immutable/mutable boundary; tuples never compare equal to lists; dict
equality is insertion-order insensitive (every pair of the left operand must
occur, up to `==`, among the pairs of the right operand, and the sizes
agree — equivalent to Python dict equality when keys are distinct). -/
def pyEq : PyObj → PyObj → Bool
  | .int n, .int m => n == m
  | .str s, .str t => s == t
  | .tuple xs, .tuple ys => pyEqList xs ys
  | .list xs, .list ys => pyEqList xs ys
  | .list xs, .immutable_list ys => pyEqList xs ys
  | .immutable_list xs, .list ys => pyEqList xs ys
  | .immutable_list xs, .immutable_list ys => pyEqList xs ys
  | .dict a, .dict b => pyEqDict a b
  | .dict a, .immutable_dict b => pyEqDict a b
  | .immutable_dict a, .dict b => pyEqDict a b
  | .immutable_dict a, .immutable_dict b => pyEqDict a b
  | _, _ => false

/-- Elementwise Python `==` of two element sequences. -/
def pyEqList : List PyObj → List PyObj → Bool
  | [], [] => true
  | x :: xs, y :: ys => pyEq x y && pyEqList xs ys
  | _, _ => false

/-- Python dict `==`: same size and every pair of the first occurs in the
second. -/
def pyEqDict (a b : List (PyObj × PyObj)) : Bool :=
  pyEqPairsSubset a b && (a.length == b.length)

/-- Every key/value pair of the first list occurs (up to `==`) in the
second. -/
def pyEqPairsSubset : List (PyObj × PyObj) → List (PyObj × PyObj) → Bool
  | [], _ => true
  | kv :: rest, b => pyEqPairMem kv b && pyEqPairsSubset rest b

/-- The pair occurs (key and value both `==`) in the list. -/
def pyEqPairMem : PyObj × PyObj → List (PyObj × PyObj) → Bool
  | _, [] => false
  | (k, v), (k2, v2) :: rest => (pyEq k k2 && pyEq v v2) || pyEqPairMem (k, v) rest

end

mutual

/-- Python `==` on the embedded values is reflexive. -/
theorem pyEq_refl : ∀ x : PyObj, pyEq x x = true
  | .int n => by simp [pyEq]
  | .str s => by simp [pyEq]
  | .tuple xs => by simpa [pyEq] using pyEqList_refl xs
  | .list xs => by simpa [pyEq] using pyEqList_refl xs
  | .immutable_list xs => by simpa [pyEq] using pyEqList_refl xs
  | .dict a => by
      simp [pyEq, pyEqDict]
      exact pyEqPairsSubset_of_mem a a (fun kv hkv => hkv)
  | .immutable_dict a => by
      simp [pyEq, pyEqDict]
      exact pyEqPairsSubset_of_mem a a (fun kv hkv => hkv)
termination_by x => 2 * sizeOf x

theorem pyEqList_refl : ∀ xs : List PyObj, pyEqList xs xs = true
  | [] => by simp [pyEqList]
  | x :: xs => by simp [pyEqList, pyEq_refl x, pyEqList_refl xs]
termination_by xs => 2 * sizeOf xs

theorem pyEqPairsSubset_of_mem :
    ∀ a b : List (PyObj × PyObj), (∀ kv ∈ a, kv ∈ b) → pyEqPairsSubset a b = true
  | [], b, _ => by simp [pyEqPairsSubset]
  | (k, v) :: rest, b, h => by
      have h1 : pyEqPairMem (k, v) b = true :=
        pyEqPairMem_of_mem (k, v) b (h (k, v) (List.mem_cons_self (k, v) rest))
      have h2 : pyEqPairsSubset rest b = true :=
        pyEqPairsSubset_of_mem rest b (fun kv hkv => h kv (List.mem_cons_of_mem _ hkv))
      simp [pyEqPairsSubset, h1, h2]
termination_by a b _ => sizeOf a + sizeOf b

theorem pyEqPairMem_of_mem :
    ∀ (kv : PyObj × PyObj) (b : List (PyObj × PyObj)), kv ∈ b → pyEqPairMem kv b = true
  | (k, v), [], h => absurd h (List.not_mem_nil (k, v))
  | (k, v), (k2, v2) :: rest, h => by
      rcases List.mem_cons.1 h with heq | hmem
      · rw [Prod.mk.injEq] at heq
        obtain ⟨h3, h4⟩ := heq
        subst h3
        subst h4
        simp [pyEqPairMem, pyEq_refl k, pyEq_refl v]
      · simp [pyEqPairMem, pyEqPairMem_of_mem (k, v) rest hmem]
termination_by kv b _ => sizeOf kv + sizeOf b

end

/-!
## Python hashing

`immutable_list.__hash__` is `lambda self: hash(tuple(self))` and
`immutable_dict.__hash__` is `lambda self: hash(tuple(self.items()))`.  We
embed the deterministic CPython hash algorithms for integers (reduction modulo
the Mersenne prime `2^61 - 1`, with `-1` mapped to `-2`) and for tuples (the
xxHash-based combination over the 64-bit unsigned casts of the element
hashes, used since CPython 3.8).  String hashing is salted per process in
CPython, so the embedding is parametrised by an arbitrary string-hash
function `hs`.  Plain lists and dicts are unhashable: hashing them fails,
which is modelled by `Option`. -/

/-- Constant `2^64`, the modulus of `Py_uhash_t` arithmetic. -/
def U64 : Nat := 18446744073709551616

/-- Constant `_PyHASH_XXPRIME_1`. -/
def XXPRIME1 : Nat := 11400714785074694791

/-- Constant `_PyHASH_XXPRIME_2`. -/
def XXPRIME2 : Nat := 14029467366897019727

/-- Constant `_PyHASH_XXPRIME_5`. -/
def XXPRIME5 : Nat := 2870177450012600261

/-- Rotation `_PyHASH_XXROTATE(x) = (x << 31) | (x >> 33)` on 64 bits; the two parts
occupy disjoint bit ranges, so the bitwise or is an addition. -/
def xxrotate (x : Nat) : Nat := (x * 2 ^ 31) % U64 + x / 2 ^ 33

/-- The loop of the CPython `tuplehash`:
`acc += lane * XXPRIME2; acc = XXROTATE(acc); acc *= XXPRIME1`. -/
def tupleHashLoop : List Nat → Nat → Nat
  | [], acc => acc
  | lane :: lanes, acc =>
      tupleHashLoop lanes (xxrotate ((acc + lane * XXPRIME2) % U64) * XXPRIME1 % U64)

/-- Cast a `Py_uhash_t` value to the signed `Py_hash_t`. -/
def toSigned64 (u : Nat) : Int :=
  if u < 2 ^ 63 then (u : Int) else (u : Int) - (U64 : Int)

/-- Cast a signed hash value to `Py_uhash_t` (the `lane` of `tuplehash`). -/
def toUnsigned64 (h : Int) : Nat := (h % (U64 : Int)).toNat

/-- The CPython `tuplehash` as a function of the lanes (the unsigned casts of
the element hashes): run the combination loop from `XXPRIME5`, mix in the
length, and replace the error sentinel `(Py_uhash_t)-1` by `1546275796`. -/
def tupleHashFromLanes (lanes : List Nat) : Int :=
  let acc := (tupleHashLoop lanes XXPRIME5 + Nat.xor lanes.length (Nat.xor XXPRIME5 3527539)) % U64
  if acc = U64 - 1 then 1546275796 else toSigned64 acc

/-- The CPython hash of an `int`: sign times the magnitude reduced modulo
`2^61 - 1`, with the reserved value `-1` replaced by `-2`. -/
def pyIntHash (n : Int) : Int :=
  let M : Int := 2 ^ 61 - 1
  let r : Int := if 0 ≤ n then n % M else -((-n) % M)
  if r = -1 then -2 else r

mutual

/-- Python `hash` on the embedded values, parametrised by the per-process
string-hash function `hs`.  Plain lists and dicts are unhashable (`none`).
`immutable_list` hashes as the tuple of its elements and `immutable_dict`
as the tuple of its `(key, value)` item pairs, exactly as installed by the
`__hash__` lambdas in the source. -/
def pyHash (hs : String → Int) : PyObj → Option Int
  | .int n => some (pyIntHash n)
  | .str s => some (hs s)
  | .tuple xs => (pyHashLanes hs xs).map tupleHashFromLanes
  | .list _ => none
  | .dict _ => none
  | .immutable_list xs => (pyHashLanes hs xs).map tupleHashFromLanes
  | .immutable_dict kvs => (pyHashPairLanes hs kvs).map tupleHashFromLanes

/-- The lanes of a tuple hash: the unsigned casts of the element hashes,
failing as soon as one element is unhashable. -/
def pyHashLanes (hs : String → Int) : List PyObj → Option (List Nat)
  | [] => some []
  | x :: xs =>
      match pyHash hs x, pyHashLanes hs xs with
      | some h, some rest => some (toUnsigned64 h :: rest)
      | _, _ => none

/-- The lanes of the hash of an items tuple: each `(key, value)` pair is a
2-tuple, whose hash combines the hashes of the key and the value; the pair
is unhashable exactly when the key or the value is. -/
def pyHashPairLanes (hs : String → Int) : List (PyObj × PyObj) → Option (List Nat)
  | [] => some []
  | (k, v) :: rest =>
      match pyHash hs k, pyHash hs v, pyHashPairLanes hs rest with
      | some hk, some hv, some others =>
          some (toUnsigned64 (tupleHashFromLanes [toUnsigned64 hk, toUnsigned64 hv]) :: others)
      | _, _, _ => none

end

/-!
## The immutable container factory: blocked operations

`_create_immutable_container_class` builds `type("immutable_" + base.__name__,
(base,), namespace)` where the namespace maps every listed mutating method
name to `_no_mutation`, which raises
`NotImplementedError` with the quoted type name and the help text —
the `MutationDenied` error kind of the specification.  Method invocation is
embedded as `invokeOn`, returning the raised message together with the
observable state after the call. -/

/-- The module-level `_help_mutation` string constant. -/
def _help_mutation : String :=
  "If you are attempting to modify the kwargs or args of a torch.fx.Node object,\ninstead create a new copy of it and assign the copy to the node:\n    new_args = ... # copy and mutate args\n    node.args = new_args\n"

/-- The message of the error `_no_mutation` raises:
`f-string of type(self).__name__ and _help_mutation`.  Note it interpolates
only the type name, not the invoked method. -/
def _no_mutation_message (typeName : String) : String :=
  "\x27" ++ typeName ++ "\x27 object does not support mutation. " ++ _help_mutation

/-- Name `"immutable_" + base.__name__`, the name given to the created class. -/
def immutable_class_name (baseName : String) : String := "immutable_" ++ baseName

/-- The `mutable_functions` tuple passed for `immutable_list`, in source
order. -/
def immutable_list_mutable_functions : List String :=
  ["__delitem__", "__iadd__", "__imul__", "__setitem__", "append", "clear",
   "extend", "insert", "pop", "remove", "reverse", "sort"]

/-- The `mutable_functions` tuple passed for `immutable_dict`, in source
order. -/
def immutable_dict_mutable_functions : List String :=
  ["__delitem__", "__ior__", "__setitem__", "clear", "pop", "popitem",
   "setdefault", "update"]

/-- Outcome of invoking a method: an exception with its message, or a
returned value; either way paired with the observable state of the receiver after
the call. -/
inductive MethodResult where
  | raised (msg : String) (post : PyObj)
  | returned (val : PyObj) (post : PyObj)

/-- Method dispatch on the immutable containers: names listed in
`mutable_functions` were overridden in the class namespace by `_no_mutation`,
which raises before touching the receiver, so the state is returned
unchanged; other names resolve to the inherited read-only behaviour (the
representative `__len__` is embedded; unmodelled methods yield `none`). -/
def invokeOn : PyObj → String → List PyObj → Option MethodResult
  | .immutable_list xs, op, _ =>
      if op ∈ immutable_list_mutable_functions then
        some (.raised (_no_mutation_message (immutable_class_name "list")) (.immutable_list xs))
      else if op = "__len__" then
        some (.returned (.int xs.length) (.immutable_list xs))
      else none
  | .immutable_dict kvs, op, _ =>
      if op ∈ immutable_dict_mutable_functions then
        some (.raised (_no_mutation_message (immutable_class_name "dict")) (.immutable_dict kvs))
      else if op = "__len__" then
        some (.returned (.int kvs.length) (.immutable_dict kvs))
      else none
  | _, _, _ => none

/-- The needle matches at the head of the haystack. -/
def matchesAt : List Char → List Char → Bool
  | [], _ => true
  | _ :: _, [] => false
  | a :: as, b :: bs => a == b && matchesAt as bs

/-- The needle occurs somewhere in the haystack. -/
def containsRun : List Char → List Char → Bool
  | needle, [] => matchesAt needle []
  | needle, c :: rest => matchesAt needle (c :: rest) || containsRun needle rest

/-- Substring occurrence on strings. -/
def strContainsSub (hay needle : String) : Bool := containsRun needle.toList hay.toList

/-!
## `__reduce__` and reconstruction

`immutable_list.__reduce__` is `lambda self: (type(self), (tuple(self),))`
and `immutable_dict.__reduce__` is
`lambda self: (type(self), (tuple(self.items()),))`.  Reconstruction applies
the class constructor to the argument tuple: base `list(iterable)`
construction, and base `dict(pair_iterable)` construction, which inserts the
pairs left to right. -/

/-- The two class constructors that `__reduce__` can name. -/
inductive PyCtor where
  | immutable_list_ctor
  | immutable_dict_ctor
  deriving DecidableEq

/-- The `__reduce__` hooks installed in the class namespaces:
`(type(self), (tuple-of-contents,))`. -/
def reduceHook : PyObj → Option (PyCtor × PyObj)
  | .immutable_list xs => some (.immutable_list_ctor, .tuple [.tuple xs])
  | .immutable_dict kvs =>
      some (.immutable_dict_ctor, .tuple [.tuple (kvs.map fun kv => .tuple [kv.1, kv.2])])
  | _ => none

/-- Assignment `d[k] = v` on the association-list representation of a dict: replace the
value of the first key comparing `==` to `k` (keeping the stored key and its
position, as CPython does), else append the pair. -/
def dict_setitem : List (PyObj × PyObj) → PyObj → PyObj → List (PyObj × PyObj)
  | [], k, v => [(k, v)]
  | (k2, v2) :: rest, k, v =>
      if pyEq k2 k then (k2, v) :: rest else (k2, v2) :: dict_setitem rest k v

/-- Base `dict` construction from a sequence of key/value pairs: insert left
to right. -/
def dictFromPairs (pairs : List (PyObj × PyObj)) : List (PyObj × PyObj) :=
  pairs.foldl (fun acc kv => dict_setitem acc kv.1 kv.2) []

/-- Decode a list of Python 2-tuples into key/value pairs. -/
def pairsOfTuples : List PyObj → Option (List (PyObj × PyObj))
  | [] => some []
  | .tuple [k, v] :: rest => (pairsOfTuples rest).map (fun r => (k, v) :: r)
  | _ => none

/-- Apply a constructor named by `__reduce__` to its positional-argument
tuple: `immutable_list(tuple_of_elements)` copies the elements in order;
`immutable_dict(tuple_of_pairs)` inserts the pairs left to right.  Neither
path goes through a blocked method: both are base-class construction. -/
def applyCtor : PyCtor → PyObj → Option PyObj
  | .immutable_list_ctor, .tuple [.tuple xs] => some (.immutable_list xs)
  | .immutable_dict_ctor, .tuple [.tuple elems] =>
      (pairsOfTuples elems).map fun pairs => .immutable_dict (dictFromPairs pairs)
  | _, _ => none

/-- No pair of the list carries a key comparing `==` to the key of a later pair
(the defining invariant of the association lists that represent real dicts,
oriented the way `dict_setitem` compares). -/
def distinctKeys : List (PyObj × PyObj) → Bool
  | [] => true
  | (k, _) :: rest => rest.all (fun kv => !(pyEq k kv.1)) && distinctKeys rest

/-!
## The pytree registration adapter

The four functions registered for each type.  The `torch.utils._pytree`
helpers that the source wraps are not part of the repository sources and are
modelled from the specification. -/

/-- Modelled from the spec: `torch.utils._pytree._list_flatten` (missing
from the sources) — children are the elements in order, the context is
trivial. -/
def _list_flatten (d : List PyObj) : List PyObj × Unit := (d, ())

/-- Modelled from the spec: `torch.utils._pytree._list_unflatten` (missing
from the sources) — rebuild the sequence from the children, ignoring the
trivial context. -/
def _list_unflatten (values : List PyObj) (_ : Unit) : List PyObj := values

/-- Modelled from the spec: `torch.utils._pytree._dict_flatten` (missing
from the sources) — children are the values in key (insertion) order, the
context is the matching ordered sequence of keys. -/
def _dict_flatten (d : List (PyObj × PyObj)) : List PyObj × List PyObj :=
  (d.map Prod.snd, d.map Prod.fst)

/-- Modelled from the spec: `torch.utils._pytree._dict_unflatten` (missing
from the sources) — pair the context keys with the new children. -/
def _dict_unflatten (values : List PyObj) (context : List PyObj) :
    List (PyObj × PyObj) :=
  context.zip values

/-- A keypath token: numeric index for sequences, key value for mappings. -/
inductive KeyPath where
  | sequenceKey (idx : Nat)
  | mappingKey (key : PyObj)

/-- Modelled from the spec: `torch.utils._pytree._list_flatten_with_keys`
(missing from the sources) — each child paired with its numeric index as
keypath token, same children and context as `_list_flatten`. -/
def _list_flatten_with_keys (d : List PyObj) : List (KeyPath × PyObj) × Unit :=
  (d.enum.map (fun p => (.sequenceKey p.1, p.2)), ())

/-- Modelled from the spec: `torch.utils._pytree._dict_flatten_with_keys`
(missing from the sources) — each value paired with its key as keypath
token, same children and context as `_dict_flatten`. -/
def _dict_flatten_with_keys (d : List (PyObj × PyObj)) :
    List (KeyPath × PyObj) × List PyObj :=
  (d.map (fun kv => (.mappingKey kv.1, kv.2)), d.map Prod.fst)

/-- Source `_immutable_list_flatten`: delegates to `_list_flatten`. -/
def _immutable_list_flatten (d : List PyObj) : List PyObj × Unit := _list_flatten d

/-- Source `_immutable_list_unflatten`:
`immutable_list(_list_unflatten(values, context))`. -/
def _immutable_list_unflatten (values : List PyObj) (context : Unit) : PyObj :=
  .immutable_list (_list_unflatten values context)

/-- Source `_immutable_dict_flatten`: delegates to `_dict_flatten`. -/
def _immutable_dict_flatten (d : List (PyObj × PyObj)) : List PyObj × List PyObj :=
  _dict_flatten d

/-- Source `_immutable_dict_unflatten`:
`immutable_dict(_dict_unflatten(values, context))`. -/
def _immutable_dict_unflatten (values : List PyObj) (context : List PyObj) : PyObj :=
  .immutable_dict (_dict_unflatten values context)

/-- The `serialized_type_name` passed when registering `immutable_list`. -/
def immutable_list_serialized_type_name : String :=
  "torch.fx.immutable_collections.immutable_list"

/-- The `serialized_type_name` passed when registering `immutable_dict`. -/
def immutable_dict_serialized_type_name : String :=
  "torch.fx.immutable_collections.immutable_dict"

/-!
## Supporting lemmas -/

mutual

/-- Values whose Python `==` determines their hash: integers, strings, and
tuples / immutable lists built from such values.  Plain lists and dicts are
unhashable, and the hash of an `immutable_dict` depends on insertion order
rather than only on its `==` class. -/
def hashStable : PyObj → Bool
  | .int _ => true
  | .str _ => true
  | .tuple xs => hashStableList xs
  | .immutable_list xs => hashStableList xs
  | _ => false

/-- Every element is `hashStable`. -/
def hashStableList : List PyObj → Bool
  | [] => true
  | x :: xs => hashStable x && hashStableList xs

end

mutual

/-- On `hashStable` values, Python `==` implies equal Python hashes. -/
theorem pyHash_congr_of_stable (hs : String → Int) :
    ∀ x y : PyObj, hashStable x = true → hashStable y = true →
      pyEq x y = true → pyHash hs x = pyHash hs y
  | .int n, y, hx, hy, h => by
      cases y <;> simp [pyEq] at h
      subst h
      rfl
  | .str s, y, hx, hy, h => by
      cases y <;> simp [pyEq] at h
      subst h
      rfl
  | .tuple xs, .tuple ys, hx, hy, h => by
      rw [pyEq] at h
      rw [hashStable] at hx hy
      have h1 := pyHashLanes_congr_of_stable hs xs ys hx hy h
      simp [pyHash, h1]
  | .immutable_list xs, .immutable_list ys, hx, hy, h => by
      rw [pyEq] at h
      rw [hashStable] at hx hy
      have h1 := pyHashLanes_congr_of_stable hs xs ys hx hy h
      simp [pyHash, h1]
  | .tuple xs, .int _, hx, hy, h => by simp [pyEq] at h
  | .tuple xs, .str _, hx, hy, h => by simp [pyEq] at h
  | .tuple xs, .list _, hx, hy, h => by simp [hashStable] at hy
  | .tuple xs, .dict _, hx, hy, h => by simp [hashStable] at hy
  | .tuple xs, .immutable_list _, hx, hy, h => by simp [pyEq] at h
  | .tuple xs, .immutable_dict _, hx, hy, h => by simp [hashStable] at hy
  | .immutable_list xs, .int _, hx, hy, h => by simp [pyEq] at h
  | .immutable_list xs, .str _, hx, hy, h => by simp [pyEq] at h
  | .immutable_list xs, .list _, hx, hy, h => by simp [hashStable] at hy
  | .immutable_list xs, .dict _, hx, hy, h => by simp [hashStable] at hy
  | .immutable_list xs, .tuple _, hx, hy, h => by simp [pyEq] at h
  | .immutable_list xs, .immutable_dict _, hx, hy, h => by simp [hashStable] at hy
  | .list _, _, hx, hy, h => by simp [hashStable] at hx
  | .dict _, _, hx, hy, h => by simp [hashStable] at hx
  | .immutable_dict _, _, hx, hy, h => by simp [hashStable] at hx
termination_by x y => sizeOf x + sizeOf y

/-- Elementwise version of `pyHash_congr_of_stable` for the hash lanes. -/
theorem pyHashLanes_congr_of_stable (hs : String → Int) :
    ∀ xs ys : List PyObj, hashStableList xs = true → hashStableList ys = true →
      pyEqList xs ys = true → pyHashLanes hs xs = pyHashLanes hs ys
  | [], [], _, _, _ => rfl
  | x :: xs, y :: ys, hx, hy, h => by
      rw [hashStableList, Bool.and_eq_true] at hx hy
      rw [pyEqList, Bool.and_eq_true] at h
      have h1 := pyHash_congr_of_stable hs x y hx.1 hy.1 h.1
      have h2 := pyHashLanes_congr_of_stable hs xs ys hx.2 hy.2 h.2
      simp [pyHashLanes, h1, h2]
  | [], y :: ys, _, _, h => by simp [pyEqList] at h
  | x :: xs, [], _, _, h => by simp [pyEqList] at h
termination_by xs ys => sizeOf xs + sizeOf ys

end

/-- The lanes of an items tuple coincide with the lanes of the list of the
corresponding 2-tuples. -/
theorem pyHashPairLanes_eq_mapped (hs : String → Int) :
    ∀ kvs : List (PyObj × PyObj),
      pyHashPairLanes hs kvs = pyHashLanes hs (kvs.map fun kv => .tuple [kv.1, kv.2])
  | [] => rfl
  | (k, v) :: rest => by
      have ih := pyHashPairLanes_eq_mapped hs rest
      cases hk : pyHash hs k <;> cases hv : pyHash hs v <;>
        cases hr : pyHashPairLanes hs rest <;>
          simp [pyHashPairLanes, pyHashLanes, pyHash, hk, hv, hr, ← ih]

/-- Boolean form: a hash-lane computation fails exactly when some element is
unhashable. -/
theorem pyHashLanes_isNone (hs : String → Int) :
    ∀ xs : List PyObj,
      (pyHashLanes hs xs).isNone = xs.any (fun x => (pyHash hs x).isNone)
  | [] => rfl
  | x :: xs => by
      have ih := pyHashLanes_isNone hs xs
      cases hx : pyHash hs x <;> cases hxs : pyHashLanes hs xs
      · simp [pyHashLanes, hx, hxs]
      · simp [pyHashLanes, hx, hxs]
      · rw [hxs] at ih
        simp at ih
        simp [pyHashLanes, hx, hxs, ih]
      · rw [hxs] at ih
        simp at ih
        simp [pyHashLanes, hx, hxs, ih]
        exact ih

/-- A hash-lane computation fails exactly when some element is unhashable. -/
theorem pyHashLanes_none_iff (hs : String → Int) (xs : List PyObj) :
    pyHashLanes hs xs = none ↔ ∃ x ∈ xs, pyHash hs x = none := by
  rw [← Option.isNone_iff_eq_none, pyHashLanes_isNone]
  simp [List.any_eq_true, Option.isNone_iff_eq_none]

/-- A 2-tuple is unhashable exactly when one of its components is. -/
theorem pyHash_pair_none_iff (hs : String → Int) (k v : PyObj) :
    pyHash hs (.tuple [k, v]) = none ↔ (pyHash hs k = none ∨ pyHash hs v = none) := by
  cases hk : pyHash hs k <;> cases hv : pyHash hs v <;>
    simp [pyHash, pyHashLanes, hk, hv]

/-- Inserting a key absent from the dict appends the pair. -/
theorem dict_setitem_fresh :
    ∀ (acc : List (PyObj × PyObj)) (k v : PyObj),
      acc.all (fun kv => !(pyEq kv.1 k)) = true →
      dict_setitem acc k v = acc ++ [(k, v)]
  | [], k, v, _ => rfl
  | (k2, v2) :: rest, k, v, h => by
      rw [List.all_cons, Bool.and_eq_true] at h
      have h1 : pyEq k2 k = false := by
        have := h.1
        simp at this
        exact this
      simp [dict_setitem, h1, dict_setitem_fresh rest k v h.2]

/-- Base `dict` construction from pairs with pairwise-distinct keys returns
exactly those pairs in order. -/
theorem dictFromPairs_distinct (kvs : List (PyObj × PyObj))
    (h : distinctKeys kvs = true) : dictFromPairs kvs = kvs := by
  suffices hgen : ∀ (ps acc : List (PyObj × PyObj)), distinctKeys ps = true →
      (∀ kv ∈ ps, acc.all (fun kv2 => !(pyEq kv2.1 kv.1)) = true) →
      ps.foldl (fun a kv => dict_setitem a kv.1 kv.2) acc = acc ++ ps by
    simpa using hgen kvs [] h (by simp)
  intro ps
  induction ps with
  | nil => intro acc _ _; simp
  | cons kv rest ih =>
      intro acc hd hfresh
      obtain ⟨k, v⟩ := kv
      rw [distinctKeys, Bool.and_eq_true] at hd
      have hstep : dict_setitem acc k v = acc ++ [(k, v)] :=
        dict_setitem_fresh acc k v (hfresh (k, v) (List.mem_cons_self _ _))
      have hfresh2 : ∀ kv2 ∈ rest, (acc ++ [(k, v)]).all (fun kv3 => !(pyEq kv3.1 kv2.1)) = true := by
        intro kv2 hkv2
        rw [List.all_append, Bool.and_eq_true]
        refine ⟨hfresh kv2 (List.mem_cons_of_mem _ hkv2), ?_⟩
        have := List.all_eq_true.1 hd.1 kv2 hkv2
        simpa using this
      calc (List.foldl (fun a kv => dict_setitem a kv.1 kv.2) acc ((k, v) :: rest))
          = List.foldl (fun a kv => dict_setitem a kv.1 kv.2) (acc ++ [(k, v)]) rest := by
            rw [List.foldl_cons, hstep]
        _ = (acc ++ [(k, v)]) ++ rest := ih (acc ++ [(k, v)]) hd.2 hfresh2
        _ = acc ++ (k, v) :: rest := by simp

/-- Zipping the projections of a pair list recovers the list. -/
theorem zip_proj_eq_self {α β : Type} :
    ∀ l : List (α × β), (l.map Prod.fst).zip (l.map Prod.snd) = l
  | [] => rfl
  | (a, b) :: rest => by simp [zip_proj_eq_self rest]

/-- Decoding the 2-tuple encoding of an items list recovers the pairs. -/
theorem pairsOfTuples_mapped :
    ∀ kvs : List (PyObj × PyObj),
      pairsOfTuples (kvs.map fun kv => .tuple [kv.1, kv.2]) = some kvs
  | [] => rfl
  | (k, v) :: rest => by simp [pairsOfTuples, pairsOfTuples_mapped rest]

/-- Stripping the keypath tokens from the enumerated children recovers the
children. -/
theorem enumFrom_keypath_strip (d : List PyObj) :
    ∀ n : Nat,
      ((List.enumFrom n d).map (fun p => (KeyPath.sequenceKey p.1, p.2))).map Prod.snd = d := by
  induction d with
  | nil => intro n; rfl
  | cons x xs ih => intro n; simp [List.enumFrom, ih]

/-- The keypath tokens of the enumerated children are the indices in order. -/
theorem enumFrom_keypath_tokens (d : List PyObj) :
    ∀ n : Nat,
      ((List.enumFrom n d).map (fun p => (KeyPath.sequenceKey p.1, p.2))).map Prod.fst =
        (List.range' n d.length).map KeyPath.sequenceKey := by
  induction d with
  | nil => intro n; rfl
  | cons x xs ih => intro n; simp [List.enumFrom, List.range', ih]

/-!
## The claims -/

/-- C1: for every `immutable_list` and every `immutable_dict` contents,
applying the registered unflatten function to the `(children, context)` pair
produced by the registered flatten function, with the children passed
through unchanged, yields a container of the same immutable type (the
`immutable_list` / `immutable_dict` constructor) that is structurally equal
to the original. -/
theorem claim_C1_unflatten_flatten_roundtrip (xs : List PyObj)
    (kvs : List (PyObj × PyObj)) :
    _immutable_list_unflatten (_immutable_list_flatten xs).1 (_immutable_list_flatten xs).2 =
      .immutable_list xs ∧
    pyEq (_immutable_list_unflatten (_immutable_list_flatten xs).1 (_immutable_list_flatten xs).2)
      (.immutable_list xs) = true ∧
    _immutable_dict_unflatten (_immutable_dict_flatten kvs).1 (_immutable_dict_flatten kvs).2 =
      .immutable_dict kvs ∧
    pyEq (_immutable_dict_unflatten (_immutable_dict_flatten kvs).1 (_immutable_dict_flatten kvs).2)
      (.immutable_dict kvs) = true := by
  have hlist :
      _immutable_list_unflatten (_immutable_list_flatten xs).1 (_immutable_list_flatten xs).2 =
        .immutable_list xs := rfl
  have hdict :
      _immutable_dict_unflatten (_immutable_dict_flatten kvs).1 (_immutable_dict_flatten kvs).2 =
        .immutable_dict kvs := by
    simp [_immutable_dict_unflatten, _immutable_dict_flatten, _dict_unflatten, _dict_flatten,
      zip_proj_eq_self]
  refine ⟨hlist, ?_, hdict, ?_⟩
  · rw [hlist]; exact pyEq_refl _
  · rw [hdict]; exact pyEq_refl _

/-- C2: invoking any operation named in the blocked set of `immutable_list`
or of `immutable_dict` on an instance raises the mutation-denied error (the
`NotImplementedError` built by `_no_mutation`) and leaves the observable state of the
instance unchanged. -/
theorem claim_C2_blocked_ops_raise_and_preserve (op : String) (xs : List PyObj)
    (kvs : List (PyObj × PyObj)) (args : List PyObj) :
    (op ∈ immutable_list_mutable_functions →
      invokeOn (.immutable_list xs) op args =
        some (.raised (_no_mutation_message (immutable_class_name "list"))
          (.immutable_list xs))) ∧
    (op ∈ immutable_dict_mutable_functions →
      invokeOn (.immutable_dict kvs) op args =
        some (.raised (_no_mutation_message (immutable_class_name "dict"))
          (.immutable_dict kvs))) := by
  constructor
  · intro h
    simp [invokeOn, h]
  · intro h
    simp [invokeOn, h]

/-- Witness for C2 at the operation `"pop"`, which is blocked for both
types. -/
theorem claim_C2_blocked_ops_raise_and_preserve_witness :
    invokeOn (.immutable_list [.int 1]) "pop" [] =
      some (.raised (_no_mutation_message (immutable_class_name "list"))
        (.immutable_list [.int 1])) ∧
    invokeOn (.immutable_dict [(.str "a", .int 1)]) "pop" [] =
      some (.raised (_no_mutation_message (immutable_class_name "dict"))
        (.immutable_dict [(.str "a", .int 1)])) := by
  have h := claim_C2_blocked_ops_raise_and_preserve "pop" [.int 1] [(.str "a", .int 1)] []
  exact ⟨h.1 (by decide), h.2 (by decide)⟩

/-- C3 (counterexample): the message raised when invoking the blocked
operation `"append"` on an `immutable_list` does not contain the string
`"append"` — indeed it is the very same message raised for `"sort"` — so it
does not identify the offending operation. -/
theorem claim_C3_counterexample :
    invokeOn (.immutable_list [.int 1]) "append" [.int 2] =
      some (.raised (_no_mutation_message (immutable_class_name "list"))
        (.immutable_list [.int 1])) ∧
    invokeOn (.immutable_list [.int 1]) "sort" [] =
      some (.raised (_no_mutation_message (immutable_class_name "list"))
        (.immutable_list [.int 1])) ∧
    strContainsSub (_no_mutation_message (immutable_class_name "list")) "append" = false := by
  refine ⟨rfl, rfl, by decide⟩

/-- C3 (amended): every blocked operation raises an error whose message
identifies the offending type (`immutable_list` / `immutable_dict`) and
carries the construct-and-reassign remediation, but the message is one fixed
string per type, independent of the invoked operation, so it does not
identify the operation. -/
theorem claim_C3_amended_message_contents (op : String) (xs : List PyObj)
    (kvs : List (PyObj × PyObj)) (args : List PyObj) :
    (op ∈ immutable_list_mutable_functions →
      ∃ m, invokeOn (.immutable_list xs) op args = some (.raised m (.immutable_list xs)) ∧
        m = _no_mutation_message (immutable_class_name "list") ∧
        strContainsSub m (immutable_class_name "list") = true ∧
        strContainsSub m "instead create a new copy of it and assign the copy to the node" = true) ∧
    (op ∈ immutable_dict_mutable_functions →
      ∃ m, invokeOn (.immutable_dict kvs) op args = some (.raised m (.immutable_dict kvs)) ∧
        m = _no_mutation_message (immutable_class_name "dict") ∧
        strContainsSub m (immutable_class_name "dict") = true ∧
        strContainsSub m "instead create a new copy of it and assign the copy to the node" = true) := by
  constructor
  · intro h
    exact ⟨_, by simp [invokeOn, h], rfl, by decide, by decide⟩
  · intro h
    exact ⟨_, by simp [invokeOn, h], rfl, by decide, by decide⟩

/-- Witness for the amended C3 at the operation `"clear"`, blocked for both
types. -/
theorem claim_C3_amended_message_contents_witness :
    (∃ m, invokeOn (.immutable_list []) "clear" [] = some (.raised m (.immutable_list [])) ∧
      m = _no_mutation_message (immutable_class_name "list") ∧
      strContainsSub m (immutable_class_name "list") = true ∧
      strContainsSub m "instead create a new copy of it and assign the copy to the node" = true) ∧
    (∃ m, invokeOn (.immutable_dict []) "clear" [] = some (.raised m (.immutable_dict [])) ∧
      m = _no_mutation_message (immutable_class_name "dict") ∧
      strContainsSub m (immutable_class_name "dict") = true ∧
      strContainsSub m "instead create a new copy of it and assign the copy to the node" = true) := by
  have h := claim_C3_amended_message_contents "clear" [] [] []
  exact ⟨h.1 (by decide), h.2 (by decide)⟩

/-- C4 (counterexample): two `immutable_dict` instances built from the same
key/value pairs in different insertion orders compare `==`-equal, yet their
hashes (computed by `hash(tuple(self.items()))` under the CPython integer and
tuple hashing) differ. -/
theorem claim_C4_counterexample :
    pyEq (.immutable_dict [(.int 0, .int 1), (.int 1, .int 2)])
      (.immutable_dict [(.int 1, .int 2), (.int 0, .int 1)]) = true ∧
    pyHash (fun _ => 0) (.immutable_dict [(.int 0, .int 1), (.int 1, .int 2)]) ≠
      pyHash (fun _ => 0) (.immutable_dict [(.int 1, .int 2), (.int 0, .int 1)]) := by
  constructor
  · simp [pyEq, pyEqDict, pyEqPairsSubset, pyEqPairMem]
  · simp only [pyHash, pyHashPairLanes]
    decide

/-- C4 (amended): the hash of an immutable container is a function of its
contents sequence.  `c1 == c2` implies `hash(c1) == hash(c2)` for
`immutable_list` instances whose elements are of hash-stable kinds (ints,
strings, tuples and immutable lists thereof), and for `immutable_dict`
instances whose item sequences are pairwise `==` in the same order with
hash-stable entries; for `immutable_dict`, structural equality alone does
not suffice, since the hash depends on insertion order. -/
theorem claim_C4_amended_hash_respects_stable_eq (hs : String → Int)
    (xs ys : List PyObj) (kvs kvs2 : List (PyObj × PyObj))
    (hxs : hashStableList xs = true) (hys : hashStableList ys = true)
    (hkvs : hashStableList (kvs.map fun kv => .tuple [kv.1, kv.2]) = true)
    (hkvs2 : hashStableList (kvs2.map fun kv => .tuple [kv.1, kv.2]) = true)
    (hleq : pyEq (.immutable_list xs) (.immutable_list ys) = true)
    (hdeq : pyEqList (kvs.map fun kv => .tuple [kv.1, kv.2])
      (kvs2.map fun kv => .tuple [kv.1, kv.2]) = true) :
    pyHash hs (.immutable_list xs) = pyHash hs (.immutable_list ys) ∧
    pyHash hs (.immutable_dict kvs) = pyHash hs (.immutable_dict kvs2) := by
  constructor
  · exact pyHash_congr_of_stable hs _ _ (by rw [hashStable]; exact hxs)
      (by rw [hashStable]; exact hys) hleq
  · have h1 := pyHashLanes_congr_of_stable hs _ _ hkvs hkvs2 hdeq
    simp [pyHash, pyHashPairLanes_eq_mapped, h1]

/-- Witness for the amended C4 at concrete stable contents. -/
theorem claim_C4_amended_hash_respects_stable_eq_witness :
    pyHash (fun _ => 0) (.immutable_list [.int 1, .str "a"]) =
      pyHash (fun _ => 0) (.immutable_list [.int 1, .str "a"]) ∧
    pyHash (fun _ => 0) (.immutable_dict [(.str "k", .int 5)]) =
      pyHash (fun _ => 0) (.immutable_dict [(.str "k", .int 5)]) := by
  refine claim_C4_amended_hash_respects_stable_eq (fun _ => 0)
    [.int 1, .str "a"] [.int 1, .str "a"] [(.str "k", .int 5)] [(.str "k", .int 5)]
    ?_ ?_ ?_ ?_ ?_ ?_
  · simp [hashStableList, hashStable]
  · simp [hashStableList, hashStable]
  · simp [hashStableList, hashStable]
  · simp [hashStableList, hashStable]
  · simp [pyEq, pyEqList]
  · simp [pyEqList, pyEq]

/-- C5: `__reduce__` returns the pair of the type constructor and a
one-element argument tuple holding the tuple of elements (for
`immutable_list`) or of key/value pairs (for `immutable_dict`), and applying
the constructor to that argument tuple — plain base-class construction,
no blocked operation — recreates an instance of the same immutable type
equal to the original (for dicts, under their distinct-keys invariant). -/
theorem claim_C5_reduce_reconstruction (xs : List PyObj)
    (kvs : List (PyObj × PyObj)) (h : distinctKeys kvs = true) :
    reduceHook (.immutable_list xs) = some (.immutable_list_ctor, .tuple [.tuple xs]) ∧
    applyCtor .immutable_list_ctor (.tuple [.tuple xs]) = some (.immutable_list xs) ∧
    pyEq (.immutable_list xs) (.immutable_list xs) = true ∧
    reduceHook (.immutable_dict kvs) =
      some (.immutable_dict_ctor, .tuple [.tuple (kvs.map fun kv => .tuple [kv.1, kv.2])]) ∧
    applyCtor .immutable_dict_ctor (.tuple [.tuple (kvs.map fun kv => .tuple [kv.1, kv.2])]) =
      some (.immutable_dict kvs) ∧
    pyEq (.immutable_dict kvs) (.immutable_dict kvs) = true := by
  refine ⟨rfl, rfl, pyEq_refl _, rfl, ?_, pyEq_refl _⟩
  simp [applyCtor, pairsOfTuples_mapped, dictFromPairs_distinct kvs h]

/-- Witness for C5 at a concrete list and dict. -/
theorem claim_C5_reduce_reconstruction_witness :
    applyCtor .immutable_list_ctor (.tuple [.tuple [.int 1, .int 2]]) =
      some (.immutable_list [.int 1, .int 2]) ∧
    applyCtor .immutable_dict_ctor
        (.tuple [.tuple [.tuple [.str "a", .int 1], .tuple [.str "b", .int 2]]]) =
      some (.immutable_dict [(.str "a", .int 1), (.str "b", .int 2)]) := by
  have h := claim_C5_reduce_reconstruction [.int 1, .int 2]
    [(.str "a", .int 1), (.str "b", .int 2)]
    (by simp [distinctKeys, pyEq])
  exact ⟨h.2.1, h.2.2.2.2.1⟩

/-- C6: the children produced by the registered flatten-with-keys functions,
stripped of their keypath tokens, equal the children produced by the
registered flatten functions in the same order, the contexts agree, and the
keypath token of each child is its numeric index for `immutable_list` and
its key for `immutable_dict`. -/
theorem claim_C6_flatten_with_keys_agrees (d : List PyObj)
    (kvs : List (PyObj × PyObj)) :
    (_list_flatten_with_keys d).1.map Prod.snd = (_immutable_list_flatten d).1 ∧
    (_list_flatten_with_keys d).1.map Prod.fst =
      (List.range d.length).map KeyPath.sequenceKey ∧
    (_list_flatten_with_keys d).2 = (_immutable_list_flatten d).2 ∧
    (_dict_flatten_with_keys kvs).1.map Prod.snd = (_immutable_dict_flatten kvs).1 ∧
    (_dict_flatten_with_keys kvs).1.map Prod.fst =
      (kvs.map Prod.fst).map KeyPath.mappingKey ∧
    (_dict_flatten_with_keys kvs).2 = (_immutable_dict_flatten kvs).2 := by
  refine ⟨?_, ?_, rfl, ?_, ?_, rfl⟩
  · simpa [_list_flatten_with_keys, _immutable_list_flatten, _list_flatten, List.enum]
      using enumFrom_keypath_strip d 0
  · have h := enumFrom_keypath_tokens d 0
    rw [← List.range_eq_range'] at h
    simpa [_list_flatten_with_keys, List.enum] using h
  · simp [_dict_flatten_with_keys, _immutable_dict_flatten, _dict_flatten]
  · simp [_dict_flatten_with_keys]

/-- C7: on the immutable mapping built from `{"a": 1, "b": 2}`, the
registered flatten yields children `[1, 2]` and context `["a", "b"]`, the
registered flatten-with-keys yields the values paired with their keys, and
the registered unflatten applied to children `[10, 20]` with context
`["a", "b"]` yields a mapping equal to `{"a": 10, "b": 20}`. -/
theorem claim_C7_mapping_example :
    _immutable_dict_flatten [(.str "a", .int 1), (.str "b", .int 2)] =
      ([.int 1, .int 2], [.str "a", .str "b"]) ∧
    _dict_flatten_with_keys [(.str "a", .int 1), (.str "b", .int 2)] =
      ([(.mappingKey (.str "a"), .int 1), (.mappingKey (.str "b"), .int 2)],
        [.str "a", .str "b"]) ∧
    _immutable_dict_unflatten [.int 10, .int 20] [.str "a", .str "b"] =
      .immutable_dict [(.str "a", .int 10), (.str "b", .int 20)] ∧
    pyEq (_immutable_dict_unflatten [.int 10, .int 20] [.str "a", .str "b"])
      (.dict [(.str "a", .int 10), (.str "b", .int 20)]) = true := by
  refine ⟨rfl, rfl, rfl, ?_⟩
  simp [_immutable_dict_unflatten, _dict_unflatten, pyEq, pyEqDict, pyEqPairsSubset,
    pyEqPairMem]

/-- C8: the serialized type names passed at registration are fixed string
constants, and the name registered for `immutable_list` differs from the
name registered for `immutable_dict`. -/
theorem claim_C8_serialized_type_names_distinct :
    immutable_list_serialized_type_name ≠ immutable_dict_serialized_type_name := by
  decide

/-- C9: an immutable container compares `==`-equal, in both directions, to
the plain mutable container with the same contents: structural equality is
inherited from the mutable base kind and crosses the immutable/mutable
boundary. -/
theorem claim_C9_eq_crosses_mutability (xs : List PyObj)
    (kvs : List (PyObj × PyObj)) :
    pyEq (.immutable_list xs) (.list xs) = true ∧
    pyEq (.list xs) (.immutable_list xs) = true ∧
    pyEq (.immutable_dict kvs) (.dict kvs) = true ∧
    pyEq (.dict kvs) (.immutable_dict kvs) = true := by
  have hsub : pyEqPairsSubset kvs kvs = true :=
    pyEqPairsSubset_of_mem kvs kvs (fun kv h => h)
  refine ⟨?_, ?_, ?_, ?_⟩ <;>
    simp [pyEq, pyEqDict, pyEqList_refl, hsub]

/-- C10: `hash(immutable_list(...))` is the hash of the tuple of the
elements in order and `hash(immutable_dict(...))` is the hash of the tuple
of the `(key, value)` pairs in insertion order; the hash of an immutable
mapping therefore depends on insertion order (two `==`-equal dicts with
reversed item order hash differently); and hashing fails exactly when some
element (respectively, some component of some key/value pair) is itself
unhashable. -/
theorem claim_C10_hash_semantics (hs : String → Int) (xs : List PyObj)
    (kvs : List (PyObj × PyObj)) :
    pyHash hs (.immutable_list xs) = pyHash hs (.tuple xs) ∧
    pyHash hs (.immutable_dict kvs) =
      pyHash hs (.tuple (kvs.map fun kv => .tuple [kv.1, kv.2])) ∧
    (pyEq (.immutable_dict [(.int 2, .int 7), (.int 3, .int 8)])
        (.immutable_dict [(.int 3, .int 8), (.int 2, .int 7)]) = true ∧
      pyHash (fun _ => 0) (.immutable_dict [(.int 2, .int 7), (.int 3, .int 8)]) ≠
        pyHash (fun _ => 0) (.immutable_dict [(.int 3, .int 8), (.int 2, .int 7)])) ∧
    (pyHash hs (.immutable_list xs) = none ↔ ∃ x ∈ xs, pyHash hs x = none) ∧
    (pyHash hs (.immutable_dict kvs) = none ↔
      ∃ kv ∈ kvs, pyHash hs kv.1 = none ∨ pyHash hs kv.2 = none) := by
  refine ⟨rfl, ?_, ⟨?_, ?_⟩, ?_, ?_⟩
  · simp [pyHash, pyHashPairLanes_eq_mapped]
  · simp [pyEq, pyEqDict, pyEqPairsSubset, pyEqPairMem]
  · simp only [pyHash, pyHashPairLanes]
    decide
  · rw [show pyHash hs (.immutable_list xs) = (pyHashLanes hs xs).map tupleHashFromLanes
      from rfl]
    simp [pyHashLanes_none_iff]
  · rw [show pyHash hs (.immutable_dict kvs) = (pyHashPairLanes hs kvs).map tupleHashFromLanes
      from rfl]
    rw [pyHashPairLanes_eq_mapped]
    simp only [Option.map_eq_none']
    rw [pyHashLanes_none_iff]
    constructor
    · rintro ⟨x, hx, hnone⟩
      obtain ⟨kv, hkv, rfl⟩ := List.mem_map.1 hx
      exact ⟨kv, hkv, (pyHash_pair_none_iff hs kv.1 kv.2).1 hnone⟩
    · rintro ⟨kv, hkv, hor⟩
      exact ⟨.tuple [kv.1, kv.2], List.mem_map.2 ⟨kv, hkv, rfl⟩,
        (pyHash_pair_none_iff hs kv.1 kv.2).2 hor⟩

end ImmutableCollections
